import Mathlib

set_option maxHeartbeats 1000000

/-!
Verification development for the 8-puzzle solver repository
(src/types/puzzle.ts, src/utils/puzzleUtils.ts, src/algorithms/astar.ts).

The TypeScript core is shallowly embedded: JS number arrays of 9 cells become
`List Nat`, move labels become `String`, the JS `Math.random()` stream is an
explicit parameter `σ : Nat → ℚ` consumed at an explicit cursor (JS guarantees
each draw lies in [0,1); theorems that depend on that range carry it as a
hypothesis), and the one runtime-error path of the genetic solver (indexing an
empty population) is an `Except.error`.  All definitions follow the source
line by line; deviations forced by totality (e.g. `getD` defaults for
out-of-range indexing that JS would turn into `undefined`) only concern inputs
the source never produces, and are noted where they occur.
-/

namespace EightPuzzle

/-- A board is the JS 9-element number array; cell value 0 is the blank. -/
abbrev Board := List Nat

/-- Source: src/types/puzzle.ts — `GOAL_STATE = [1,2,3,4,5,6,7,8,0]`. -/
def GOAL_STATE : Board := [1, 2, 3, 4, 5, 6, 7, 8, 0]

/-- Manhattan cost contributed by tile value `v` sitting at flat index `i`:
`|targetRow − currentRow| + |targetCol − currentCol|` with
`targetRow = (v−1)/3`, `targetCol = (v−1)%3`, `currentRow = i/3`,
`currentCol = i%3`, exactly as in `manhattanDistance` of
src/utils/puzzleUtils.ts (only ever applied to `v ≠ 0`). -/
def tileCost (i v : Nat) : Nat :=
  ((((v - 1) / 3 : Nat) : Int) - ((i / 3 : Nat) : Int)).natAbs +
    ((((v - 1) % 3 : Nat) : Int) - ((i % 3 : Nat) : Int)).natAbs

/-- Helper recursion for `manhattanDistance`: walks the board keeping the
current flat index, adding `tileCost` for each non-zero cell. -/
def mdFrom : Board → Nat → Nat
  | [], _ => 0
  | v :: rest, i => (if v ≠ 0 then tileCost i v else 0) + mdFrom rest (i + 1)

/-- Source: `manhattanDistance` of src/utils/puzzleUtils.ts — sums, over the
cells of the (9-cell) board, the grid distance of each non-zero tile to its
goal position. -/
def manhattanDistance (board : Board) : Nat := mdFrom board 0

/-- Source: `tilesOutOfPlace` of src/utils/puzzleUtils.ts — counts indices
`i < 9` with `board[i] !== 0 && board[i] !== GOAL_STATE[i]`; a missing cell
(JS `undefined`) is `List.get? = none` and compares unequal, as in JS. -/
def tilesOutOfPlace (board : Board) : Nat :=
  ((List.range 9).filter
    (fun i => board.get? i != some 0 && board.get? i != GOAL_STATE.get? i)).length

/-- Inner double loop of `isSolvable`: counts pairs `i < j` of the flat list
with `flat[i] > flat[j]`, head-first. -/
def inversions : List Nat → Nat
  | [] => 0
  | x :: xs => (xs.filter (fun y => y < x)).length + inversions xs

/-- Source: `isSolvable` of src/utils/puzzleUtils.ts — drops the blank, counts
inversions of the remaining flat sequence, and tests evenness. -/
def isSolvable (board : Board) : Bool :=
  inversions (board.filter (fun x => x != 0)) % 2 == 0

/-- Source: `getEmptyIndex` of src/utils/puzzleUtils.ts — `board.indexOf(0)`
(on the valid boards the solvers use, 0 is always present; JS would return −1
when it is absent, `List.indexOf` returns the length). -/
def getEmptyIndex (board : Board) : Nat := board.indexOf 0

/-- One direction row of the `directions` table in `getValidMoves`. -/
structure Direction where
  dr : Int
  dc : Int
  name : String

/-- Source: the `directions` array of `getValidMoves`, in source order. -/
def directions : List Direction :=
  [⟨-1, 0, "UP"⟩, ⟨1, 0, "DOWN"⟩, ⟨0, -1, "LEFT"⟩, ⟨0, 1, "RIGHT"⟩]

/-- The destructuring swap of `getValidMoves` performed on a fresh copy of the
board: cell `i` receives the old cell `j` and vice versa. -/
def swapCells (board : Board) (i j : Nat) : Board :=
  (board.set i (board.getD j 0)).set j (board.getD i 0)

/-- Source: `getValidMoves` of src/utils/puzzleUtils.ts — for each direction,
if the blank's neighbour in that direction stays inside the 3×3 grid, emit the
board with blank and neighbour swapped, tagged with the direction name; the
four directions are tried in the order UP, DOWN, LEFT, RIGHT. -/
def getValidMoves (board : Board) : List (Board × String) :=
  let emptyIndex := getEmptyIndex board
  let row : Int := Int.ofNat (emptyIndex / 3)
  let col : Int := Int.ofNat (emptyIndex % 3)
  directions.filterMap (fun d =>
    let newRow := row + d.dr
    let newCol := col + d.dc
    if 0 ≤ newRow && newRow < 3 && 0 ≤ newCol && newCol < 3 then
      some (swapCells board emptyIndex (newRow * 3 + newCol).toNat, d.name)
    else none)

/-- Index-carrying recursion for `isGoalState`: JS
`board.every((val, idx) => val === GOAL_STATE[idx])`; an out-of-range
`GOAL_STATE[idx]` is `none` and compares unequal, as JS `undefined` does. -/
def goalCheckFrom : Board → Nat → Bool
  | [], _ => true
  | v :: rest, i => (GOAL_STATE.get? i == some v) && goalCheckFrom rest (i + 1)

/-- Source: `isGoalState` of src/utils/puzzleUtils.ts. -/
def isGoalState (board : Board) : Bool := goalCheckFrom board 0

/-- Source: the `PuzzleState` interface of src/types/puzzle.ts (the A* search
node). -/
structure PuzzleState where
  board : Board
  moves : Nat
  heuristic : Nat
  path : List Board

/-- The JS sort comparator `(a.moves + a.heuristic) - (b.moves + b.heuristic)`
of solveAStar, as the stable-sort order "a may come before b". -/
def stateLE (a b : PuzzleState) : Bool :=
  a.moves + a.heuristic ≤ b.moves + b.heuristic

/-- Every board in the result of `getValidMoves` comes from a 4-row table. -/
theorem getValidMoves_length_le (board : Board) : (getValidMoves board).length ≤ 4 := by
  have h := List.length_filterMap_le
    (fun d : Direction =>
      let newRow := Int.ofNat (getEmptyIndex board / 3) + d.dr
      let newCol := Int.ofNat (getEmptyIndex board % 3) + d.dc
      if 0 ≤ newRow && newRow < 3 && 0 ≤ newCol && newCol < 3 then
        some (swapCells board (getEmptyIndex board) (newRow * 3 + newCol).toNat, d.name)
      else none)
    directions
  simpa [getValidMoves, directions] using h

/-- The neighbour push of `solveAStar`: for every valid move from the current
node's board that is not in the closed set, a new node with one more move, the
fresh heuristic, and the path extended by the new board. -/
def expandNodes (current : PuzzleState) (closed : List Board) : List PuzzleState :=
  (getValidMoves current.board).filterMap (fun mv =>
    if closed.contains mv.1 then none
    else some ⟨mv.1, current.moves + 1, manhattanDistance mv.1,
      current.path ++ [mv.1]⟩)

theorem expandNodes_length_le (current : PuzzleState) (closed : List Board) :
    (expandNodes current closed).length ≤ 4 :=
  le_trans (List.length_filterMap_le _ _) (getValidMoves_length_le _)

/-- Source: the `while (openSet.length > 0)` loop of `solveAStar`
(src/algorithms/astar.ts).  Each iteration stable-sorts the open list by
`moves + heuristic`, shifts the head, returns its path if it is the goal,
skips it if its board is already closed, and otherwise closes the board,
pushes the unclosed neighbour nodes, and aborts with `[]` once the closed set
exceeds 100000 entries.  The closed set of board strings is modelled as a
list of boards (`toString` is injective on boards).  The recursion carries
the sorted remainder `rest`, exactly the array state JS leaves behind after
`sort` and `shift`. -/
def astarLoop (openSet : List PuzzleState) (closedSet : List Board) : List Board :=
  match h : openSet.mergeSort stateLE with
  | [] => []
  | current :: rest =>
    if isGoalState current.board then current.path
    else if closedSet.contains current.board then astarLoop rest closedSet
    else
      let closed := current.board :: closedSet
      let newNodes := expandNodes current closed
      if closed.length > 100000 then []
      else astarLoop (rest ++ newNodes) closed
termination_by (100001 - closedSet.length) * 5 + openSet.length
decreasing_by
· have hl := congrArg List.length h
  rw [List.length_mergeSort] at hl
  simp only [List.length_cons] at hl
  omega
· rename_i hcap
  have hl := congrArg List.length h
  rw [List.length_mergeSort] at hl
  simp only [List.length_cons] at hl
  have hb := expandNodes_length_le current (current.board :: closedSet)
  have hc : closed.length = closedSet.length + 1 := rfl
  simp only [List.length_append, List.length_cons]
  omega

/-- Source: `solveAStar` of src/algorithms/astar.ts — starts the loop on the
singleton open set holding the initial node. -/
def solveAStar (initialBoard : Board) : List Board :=
  astarLoop [⟨initialBoard, 0, manhattanDistance initialBoard, [initialBoard]⟩] []

/-- Source: the `GeneticConfig` interface of src/types/puzzle.ts; the two
rates are JS numbers compared against `Math.random()`, embedded as
rationals. -/
structure GeneticConfig where
  populationSize : Nat
  maxGenerations : Nat
  mutationRate : ℚ
  crossoverRate : ℚ
  elitismCount : Nat

/-- Source: the `Individual` class fields.  JS initialises `finalDistance`
to `Infinity`, embedded as `none`; `calculateFitness` always overwrites it. -/
structure Individual where
  moves : List String
  fitness : Int
  path : List Board
  reachedGoal : Bool
  finalDistance : Option Nat

instance : Inhabited Individual := ⟨⟨[], 0, [], false, none⟩⟩

/-- The `new Individual(moves)` constructor applied to an explicit chromosome
(note a passed JS array is used even when empty, `[] || …` being truthy). -/
def Individual.ofMoves (moves : List String) : Individual :=
  ⟨moves, 0, [], false, none⟩

/-- The `moveTypes` table of `generateRandomMoves` and `mutate`. -/
def moveTypes : List String := ["UP", "DOWN", "LEFT", "RIGHT"]

/-- Embeds `Math.floor(q * n)` as a list index.  `Math.random()` draws lie in [0,1),
so the index is below `n`; theorems needing that carry the range hypothesis. -/
def randIndex (q : ℚ) (n : Nat) : Nat := (q * n).floor.toNat

/-- Source: `generateRandomMoves` — 50 uniform draws from `moveTypes`,
consuming one `Math.random()` call each (the `getD` default is unreachable
for in-range draws). -/
def generateRandomMoves (σ : Nat → ℚ) (k : Nat) : List String × Nat :=
  ((List.range 50).map (fun i => moveTypes.getD (randIndex (σ (k + i)) 4) "UP"), k + 50)

/-- The mutable state of the `calculateFitness` replay: the current board,
`this.path`, the local counters `moveCount`, `minDistanceAchieved`,
`progressScore`, and `this.reachedGoal`. -/
structure ReplayState where
  board : Board
  path : List Board
  moveCount : Nat
  minDist : Nat
  progress : Nat
  reachedGoal : Bool

/-- Entry state of the replay: board a copy of the initial board, path
`[currentBoard]`, zero counters, `minDistanceAchieved` the initial Manhattan
distance. -/
def initReplay (initialBoard : Board) : ReplayState :=
  ⟨initialBoard, [initialBoard], 0, manhattanDistance initialBoard, 0, false⟩

/-- Source: the `for (const moveType of this.moves)` loop of
`calculateFitness`.  Goal at the loop head sets `reachedGoal` and breaks; a
gene with no matching valid move is skipped with no effect; a matching move
replaces the board, appends it to the path, bumps `moveCount`, grants a
progress bonus of 10 on each new minimum Manhattan distance, and breaks with
`reachedGoal` if the new board is the goal. -/
def replayGo : ReplayState → List String → ReplayState
  | s, [] => s
  | s, moveType :: restMoves =>
    if isGoalState s.board then { s with reachedGoal := true }
    else
      match (getValidMoves s.board).find? (fun mv => mv.2 == moveType) with
      | none => replayGo s restMoves
      | some mv =>
        let newBoard := mv.1
        let currentDistance := manhattanDistance newBoard
        let s1 : ReplayState :=
          { board := newBoard
            path := s.path ++ [newBoard]
            moveCount := s.moveCount + 1
            minDist := if currentDistance < s.minDist then currentDistance else s.minDist
            progress := if currentDistance < s.minDist then s.progress + 10 else s.progress
            reachedGoal := s.reachedGoal }
        if isGoalState newBoard then { s1 with reachedGoal := true }
        else replayGo s1 restMoves

/-- Source: `Individual.calculateFitness` — runs the replay, then computes the
final distance, the misplaced-tile count, and the fitness formula
(`10000 − moveCount` on success, otherwise
`1000 − 10·finalDistance − 5·tilesWrong − moveCount + progressScore`). -/
def Individual.calculateFitness (ind : Individual) (initialBoard : Board) : Individual :=
  let s := replayGo (initReplay initialBoard) ind.moves
  let finalDistance := manhattanDistance s.board
  let tilesWrong := tilesOutOfPlace s.board
  { ind with
    path := s.path
    reachedGoal := s.reachedGoal
    finalDistance := some finalDistance
    fitness :=
      if s.reachedGoal then 10000 - (s.moveCount : Int)
      else 1000 - ((finalDistance : Int) * 10) - ((tilesWrong : Int) * 5)
        - (s.moveCount : Int) + (s.progress : Int) }

/-- Source: `Individual.crossover` — one draw picks the crossover point below
the shorter parent length; the child is parent 1's prefix up to the point
followed by parent 2's suffix from the point on. -/
def Individual.crossover (ind other : Individual) (q : ℚ) : Individual :=
  let crossoverPoint := randIndex q (min ind.moves.length other.moves.length)
  Individual.ofMoves (ind.moves.take crossoverPoint ++ other.moves.drop crossoverPoint)

/-- Per-gene loop of `Individual.mutate`: one draw decides whether the gene
mutates; a mutating gene consumes a second draw for its replacement. -/
def mutateGenes (σ : Nat → ℚ) (mutationRate : ℚ) : List String → Nat → List String × Nat
  | [], k => ([], k)
  | g :: gs, k =>
    if σ k < mutationRate then
      let g1 := moveTypes.getD (randIndex (σ (k + 1)) 4) "UP"
      let (rest, k1) := mutateGenes σ mutationRate gs (k + 2)
      (g1 :: rest, k1)
    else
      let (rest, k1) := mutateGenes σ mutationRate gs (k + 1)
      (g :: rest, k1)

/-- Source: `Individual.mutate` (mutates `this.moves` in place in JS; the
embedding returns the updated individual). -/
def Individual.mutate (ind : Individual) (σ : Nat → ℚ) (mutationRate : ℚ) (k : Nat) :
    Individual × Nat :=
  let (ms, k1) := mutateGenes σ mutationRate ind.moves k
  ({ ind with moves := ms }, k1)

/-- Source: `Individual.clone` — `new Individual([...this.moves])`. -/
def Individual.clone (ind : Individual) : Individual := Individual.ofMoves ind.moves

/-- The competitor loop of `selectParent` (`for i = 1; i < tournamentSize`),
keeping the competitor only when its fitness is strictly greater. -/
def tournamentGo (σ : Nat → ℚ) (population : List Individual) :
    Individual → Nat → Nat → Individual × Nat
  | best, 0, k => (best, k)
  | best, n + 1, k =>
    let competitor := population.getD (randIndex (σ k) population.length) default
    let best1 := if best.fitness < competitor.fitness then competitor else best
    tournamentGo σ population best1 n (k + 1)

/-- Source: `selectParent(population, tournamentSize)` — tournament selection
with replacement over the current population. -/
def selectParent (σ : Nat → ℚ) (population : List Individual) (tournamentSize : Nat)
    (k : Nat) : Individual × Nat :=
  let best := population.getD (randIndex (σ k) population.length) default
  tournamentGo σ population best (tournamentSize - 1) (k + 1)

/-- Source: `Array.from({ length: populationSize }, () => new Individual())` —
each fresh individual draws a 50-gene random chromosome. -/
def initPopulation (σ : Nat → ℚ) : Nat → Nat → List Individual × Nat
  | 0, k => ([], k)
  | n + 1, k =>
    let (ms, k1) := generateRandomMoves σ k
    let (rest, k2) := initPopulation σ n k1
    (Individual.ofMoves ms :: rest, k2)

/-- Source: the `while (newPopulation.length < populationSize)` loop of
`solvePuzzleGenetic`: two tournament parents (tournament size 5), crossover
with probability `crossoverRate` (otherwise a clone of parent 1), then
mutation.  Each pass appends exactly one offspring, so the loop is recursion
on the number of still-missing slots. -/
def fillOffspring (σ : Nat → ℚ) (population : List Individual) (config : GeneticConfig) :
    Nat → List Individual → Nat → List Individual × Nat
  | 0, acc, k => (acc, k)
  | need + 1, acc, k =>
    let sel1 := selectParent σ population 5 k
    let sel2 := selectParent σ population 5 sel1.2
    let off :=
      if σ sel2.2 < config.crossoverRate then
        (sel1.1.crossover sel2.1 (σ (sel2.2 + 1)), sel2.2 + 2)
      else (sel1.1.clone, sel2.2 + 1)
    let mut1 := off.1.mutate σ config.mutationRate off.2
    fillOffspring σ population config need (acc ++ [mut1.1]) mut1.2

/-- Source: the Reproduce step of `solvePuzzleGenetic` — clone the leading
`elitismCount` individuals (the elite loop is also bounded by the population
length, hence `take`), then fill up to `populationSize` with offspring. -/
def nextGeneration (σ : Nat → ℚ) (population : List Individual) (config : GeneticConfig)
    (k : Nat) : List Individual × Nat :=
  let elites := (population.take config.elitismCount).map Individual.clone
  fillOffspring σ population config (config.populationSize - elites.length) elites k

/-- The descending stable sort order of
`population.sort((a, b) => b.fitness - a.fitness)`. -/
def fitnessGE (a b : Individual) : Bool := b.fitness ≤ a.fitness

/-- Source: the `for (generation …)` loop of `solvePuzzleGenetic`: evaluate
every individual, stable-sort descending by fitness, refresh `bestOverall`
with a re-evaluated clone whenever the generation best beats it, return the
generation best as soon as it reached the goal, otherwise breed the next
generation.  On an empty population JS dereferences `undefined`
(`population[0]`) and throws a `TypeError`, embedded as `Except.error`. -/
def geneticLoop (σ : Nat → ℚ) (initialBoard : Board) (config : GeneticConfig) :
    Nat → List Individual → Option Individual → Nat → Except String (Option Individual)
  | 0, _, bestOverall, _ => .ok bestOverall
  | gensLeft + 1, population, bestOverall, k =>
    let evaluated := population.map (fun ind => ind.calculateFitness initialBoard)
    match evaluated.mergeSort fitnessGE with
    | [] => .error "TypeError: population[0] is undefined"
    | currentBest :: sortedRest =>
      let bestOverall1 :=
        match bestOverall with
        | none => some (currentBest.clone.calculateFitness initialBoard)
        | some b =>
          if b.fitness < currentBest.fitness then
            some (currentBest.clone.calculateFitness initialBoard)
          else some b
      if currentBest.reachedGoal then .ok (some currentBest)
      else
        let next := nextGeneration σ (currentBest :: sortedRest) config k
        geneticLoop σ initialBoard config gensLeft next.1 bestOverall1 next.2

/-- Source: `solvePuzzleGenetic` — random initial population of
`populationSize` individuals, then the generational loop for up to
`maxGenerations` generations.  The optional `onProgress` callback never
affects the returned value and is omitted. -/
def solvePuzzleGenetic (σ : Nat → ℚ) (initialBoard : Board) (config : GeneticConfig) :
    Except String (Option Individual) :=
  let init := initPopulation σ config.populationSize 0
  geneticLoop σ initialBoard config config.maxGenerations init.1 none init.2


/-! ### Helper lemmas about the board model -/

/-- A length-9 board passes `isGoalState` exactly when it is `GOAL_STATE`. -/
lemma isGoalState_iff_of_len {b : Board} (hlen : b.length = 9) :
    isGoalState b = true ↔ b = GOAL_STATE := by
  rcases b with _ | ⟨x1, _ | ⟨x2, _ | ⟨x3, _ | ⟨x4, _ | ⟨x5, _ | ⟨x6, _ | ⟨x7, _ | ⟨x8, _ | ⟨x9, rest⟩⟩⟩⟩⟩⟩⟩⟩⟩ <;>
    simp_all [isGoalState, goalCheckFrom, GOAL_STATE]
  omega

lemma getD_cons_set_perm (xs : List Nat) (j : Nat) (x : Nat) (hj : j < xs.length) :
    (xs.getD j 0 :: xs.set j x).Perm (x :: xs) := by
  induction xs generalizing j with
  | nil => simp at hj
  | cons y ys ih =>
    cases j with
    | zero => simpa using List.Perm.swap x y ys
    | succ j =>
      have h1 : (ys.getD j 0 :: y :: ys.set j x).Perm (y :: ys.getD j 0 :: ys.set j x) :=
        List.Perm.swap y (ys.getD j 0) _
      have h2 : (ys.getD j 0 :: ys.set j x).Perm (x :: ys) := ih _ (by simpa using hj)
      simpa using h1.trans ((h2.cons y).trans (List.Perm.swap x y ys))

lemma set_getD_self (l : List Nat) (i : Nat) : l.set i (l.getD i 0) = l := by
  induction l generalizing i with
  | nil => simp
  | cons x xs ih =>
    cases i with
    | zero => rfl
    | succ n =>
      show x :: xs.set n (xs.getD n 0) = x :: xs
      rw [ih n]

lemma swapCells_comm (l : Board) (i j : Nat) (hne : i ≠ j) :
    swapCells l i j = swapCells l j i := by
  unfold swapCells
  rw [List.set_comm _ _ _ hne]

lemma swapCells_perm_lt (l : List Nat) (i j : Nat) (hij : i < j) (hj : j < l.length) :
    (swapCells l i j).Perm l := by
  induction l generalizing i j with
  | nil => simp at hj
  | cons x xs ih =>
    cases i with
    | zero =>
      cases j with
      | zero => omega
      | succ j =>
        have hjj : j < xs.length := by simpa using hj
        simpa [swapCells] using getD_cons_set_perm xs j x hjj
    | succ i =>
      cases j with
      | zero => omega
      | succ j =>
        have hx : (swapCells xs i j).Perm xs := ih i j (by omega) (by simpa using hj)
        simpa [swapCells] using hx.cons x

/-- A swap of two in-range cells permutes the board. -/
lemma swapCells_perm (l : List Nat) (i j : Nat) (hi : i < l.length) (hj : j < l.length) :
    (swapCells l i j).Perm l := by
  rcases lt_trichotomy i j with h | rfl | h
  · exact swapCells_perm_lt l i j h hj
  · have h1 : l.set i (l.getD i 0) = l := set_getD_self l i
    unfold swapCells
    rw [h1, h1]
  · rw [swapCells_comm l i j (by omega)]
    exact swapCells_perm_lt l j i h hi

lemma getValidMoves_empty0 (board : Board) (h : getEmptyIndex board = 0) :
    getValidMoves board = [(swapCells board 0 3, "DOWN"), (swapCells board 0 1, "RIGHT")] := by
  simp [getValidMoves, directions, h]

lemma getValidMoves_empty1 (board : Board) (h : getEmptyIndex board = 1) :
    getValidMoves board = [(swapCells board 1 4, "DOWN"), (swapCells board 1 0, "LEFT"), (swapCells board 1 2, "RIGHT")] := by
  simp [getValidMoves, directions, h]

lemma getValidMoves_empty2 (board : Board) (h : getEmptyIndex board = 2) :
    getValidMoves board = [(swapCells board 2 5, "DOWN"), (swapCells board 2 1, "LEFT")] := by
  simp [getValidMoves, directions, h]

lemma getValidMoves_empty3 (board : Board) (h : getEmptyIndex board = 3) :
    getValidMoves board = [(swapCells board 3 0, "UP"), (swapCells board 3 6, "DOWN"), (swapCells board 3 4, "RIGHT")] := by
  simp [getValidMoves, directions, h]

lemma getValidMoves_empty4 (board : Board) (h : getEmptyIndex board = 4) :
    getValidMoves board = [(swapCells board 4 1, "UP"), (swapCells board 4 7, "DOWN"), (swapCells board 4 3, "LEFT"), (swapCells board 4 5, "RIGHT")] := by
  simp [getValidMoves, directions, h]

lemma getValidMoves_empty5 (board : Board) (h : getEmptyIndex board = 5) :
    getValidMoves board = [(swapCells board 5 2, "UP"), (swapCells board 5 8, "DOWN"), (swapCells board 5 4, "LEFT")] := by
  simp [getValidMoves, directions, h]

lemma getValidMoves_empty6 (board : Board) (h : getEmptyIndex board = 6) :
    getValidMoves board = [(swapCells board 6 3, "UP"), (swapCells board 6 7, "RIGHT")] := by
  simp [getValidMoves, directions, h]

lemma getValidMoves_empty7 (board : Board) (h : getEmptyIndex board = 7) :
    getValidMoves board = [(swapCells board 7 4, "UP"), (swapCells board 7 6, "LEFT"), (swapCells board 7 8, "RIGHT")] := by
  simp [getValidMoves, directions, h]

lemma getValidMoves_empty8 (board : Board) (h : getEmptyIndex board = 8) :
    getValidMoves board = [(swapCells board 8 5, "UP"), (swapCells board 8 7, "LEFT")] := by
  simp [getValidMoves, directions, h]

/-- Spec-side adjacency of two flat indices of the 3×3 grid: same row and
neighbouring columns, or same column and neighbouring rows. -/
def adjacentIdx (i j : Nat) : Prop :=
  (i / 3 = j / 3 ∧ (i + 1 = j ∨ j + 1 = i)) ∨ (i % 3 = j % 3 ∧ (i + 3 = j ∨ j + 3 = i))

instance (i j : Nat) : Decidable (adjacentIdx i j) := by
  unfold adjacentIdx
  infer_instance

/-- Every result of `getValidMoves` is the input board with the blank swapped
with one in-range adjacent cell. -/
lemma mem_getValidMoves {board : Board} (he : getEmptyIndex board < 9)
    {p : Board × String} (hp : p ∈ getValidMoves board) :
    ∃ j, j < 9 ∧ adjacentIdx (getEmptyIndex board) j ∧
      p.1 = swapCells board (getEmptyIndex board) j := by
  have h9 : getEmptyIndex board = 0 ∨ getEmptyIndex board = 1 ∨ getEmptyIndex board = 2 ∨
      getEmptyIndex board = 3 ∨ getEmptyIndex board = 4 ∨ getEmptyIndex board = 5 ∨
      getEmptyIndex board = 6 ∨ getEmptyIndex board = 7 ∨ getEmptyIndex board = 8 := by
    omega
  rcases h9 with h | h | h | h | h | h | h | h | h
  · rw [getValidMoves_empty0 board h] at hp
    rw [h]
    simp only [List.mem_cons, List.not_mem_nil, or_false] at hp
    rcases hp with rfl | rfl
    · exact ⟨3, by omega, by decide, rfl⟩
    · exact ⟨1, by omega, by decide, rfl⟩
  · rw [getValidMoves_empty1 board h] at hp
    rw [h]
    simp only [List.mem_cons, List.not_mem_nil, or_false] at hp
    rcases hp with rfl | rfl | rfl
    · exact ⟨4, by omega, by decide, rfl⟩
    · exact ⟨0, by omega, by decide, rfl⟩
    · exact ⟨2, by omega, by decide, rfl⟩
  · rw [getValidMoves_empty2 board h] at hp
    rw [h]
    simp only [List.mem_cons, List.not_mem_nil, or_false] at hp
    rcases hp with rfl | rfl
    · exact ⟨5, by omega, by decide, rfl⟩
    · exact ⟨1, by omega, by decide, rfl⟩
  · rw [getValidMoves_empty3 board h] at hp
    rw [h]
    simp only [List.mem_cons, List.not_mem_nil, or_false] at hp
    rcases hp with rfl | rfl | rfl
    · exact ⟨0, by omega, by decide, rfl⟩
    · exact ⟨6, by omega, by decide, rfl⟩
    · exact ⟨4, by omega, by decide, rfl⟩
  · rw [getValidMoves_empty4 board h] at hp
    rw [h]
    simp only [List.mem_cons, List.not_mem_nil, or_false] at hp
    rcases hp with rfl | rfl | rfl | rfl
    · exact ⟨1, by omega, by decide, rfl⟩
    · exact ⟨7, by omega, by decide, rfl⟩
    · exact ⟨3, by omega, by decide, rfl⟩
    · exact ⟨5, by omega, by decide, rfl⟩
  · rw [getValidMoves_empty5 board h] at hp
    rw [h]
    simp only [List.mem_cons, List.not_mem_nil, or_false] at hp
    rcases hp with rfl | rfl | rfl
    · exact ⟨2, by omega, by decide, rfl⟩
    · exact ⟨8, by omega, by decide, rfl⟩
    · exact ⟨4, by omega, by decide, rfl⟩
  · rw [getValidMoves_empty6 board h] at hp
    rw [h]
    simp only [List.mem_cons, List.not_mem_nil, or_false] at hp
    rcases hp with rfl | rfl
    · exact ⟨3, by omega, by decide, rfl⟩
    · exact ⟨7, by omega, by decide, rfl⟩
  · rw [getValidMoves_empty7 board h] at hp
    rw [h]
    simp only [List.mem_cons, List.not_mem_nil, or_false] at hp
    rcases hp with rfl | rfl | rfl
    · exact ⟨4, by omega, by decide, rfl⟩
    · exact ⟨6, by omega, by decide, rfl⟩
    · exact ⟨8, by omega, by decide, rfl⟩
  · rw [getValidMoves_empty8 board h] at hp
    rw [h]
    simp only [List.mem_cons, List.not_mem_nil, or_false] at hp
    rcases hp with rfl | rfl
    · exact ⟨5, by omega, by decide, rfl⟩
    · exact ⟨7, by omega, by decide, rfl⟩

lemma swapCells_length (l : Board) (i j : Nat) : (swapCells l i j).length = l.length := by
  simp [swapCells]

lemma perm09_facts {board : Board} (hb : board.Perm [0, 1, 2, 3, 4, 5, 6, 7, 8]) :
    board.length = 9 ∧ getEmptyIndex board < 9 := by
  have hlen : board.length = 9 := by simpa using hb.length_eq
  have h0 : (0 : Nat) ∈ board := hb.mem_iff.mpr (by decide)
  refine ⟨hlen, ?_⟩
  have h1 := List.indexOf_lt_length.mpr h0
  rw [hlen] at h1
  exact h1

/-- Claim C5: `getValidMoves` lists its results in the direction order
UP, DOWN, LEFT, RIGHT; it returns exactly 2 results when the blank is in a
corner, 3 on an edge, 4 in the center; and every returned board is a valid
permutation obtained from the input by one swap of the blank with an adjacent
cell.  (The input board itself is untouched: the source swaps on a spread
copy, and the embedding is pure.) -/
theorem claim_C5 (board : Board) (hb : board.Perm [0, 1, 2, 3, 4, 5, 6, 7, 8]) :
    ((getValidMoves board).map Prod.snd).Sublist ["UP", "DOWN", "LEFT", "RIGHT"] ∧
    (getValidMoves board).length =
      (if getEmptyIndex board = 4 then 4
       else if getEmptyIndex board = 0 ∨ getEmptyIndex board = 2 ∨
           getEmptyIndex board = 6 ∨ getEmptyIndex board = 8 then 2
       else 3) ∧
    ∀ p ∈ getValidMoves board, p.1.Perm [0, 1, 2, 3, 4, 5, 6, 7, 8] ∧
      ∃ j, j < 9 ∧ adjacentIdx (getEmptyIndex board) j ∧
        p.1 = swapCells board (getEmptyIndex board) j := by
  obtain ⟨hlen, he⟩ := perm09_facts hb
  refine ⟨?_, ?_, ?_⟩
  · have h9 : getEmptyIndex board = 0 ∨ getEmptyIndex board = 1 ∨ getEmptyIndex board = 2 ∨
        getEmptyIndex board = 3 ∨ getEmptyIndex board = 4 ∨ getEmptyIndex board = 5 ∨
        getEmptyIndex board = 6 ∨ getEmptyIndex board = 7 ∨ getEmptyIndex board = 8 := by
      omega
    rcases h9 with h | h | h | h | h | h | h | h | h
    · rw [getValidMoves_empty0 board h]
      simp only [List.map_cons, List.map_nil]
      decide
    · rw [getValidMoves_empty1 board h]
      simp only [List.map_cons, List.map_nil]
      decide
    · rw [getValidMoves_empty2 board h]
      simp only [List.map_cons, List.map_nil]
      decide
    · rw [getValidMoves_empty3 board h]
      simp only [List.map_cons, List.map_nil]
      decide
    · rw [getValidMoves_empty4 board h]
      simp only [List.map_cons, List.map_nil]
      decide
    · rw [getValidMoves_empty5 board h]
      simp only [List.map_cons, List.map_nil]
      decide
    · rw [getValidMoves_empty6 board h]
      simp only [List.map_cons, List.map_nil]
      decide
    · rw [getValidMoves_empty7 board h]
      simp only [List.map_cons, List.map_nil]
      decide
    · rw [getValidMoves_empty8 board h]
      simp only [List.map_cons, List.map_nil]
      decide
  · have h9 : getEmptyIndex board = 0 ∨ getEmptyIndex board = 1 ∨ getEmptyIndex board = 2 ∨
        getEmptyIndex board = 3 ∨ getEmptyIndex board = 4 ∨ getEmptyIndex board = 5 ∨
        getEmptyIndex board = 6 ∨ getEmptyIndex board = 7 ∨ getEmptyIndex board = 8 := by
      omega
    rcases h9 with h | h | h | h | h | h | h | h | h
    · rw [getValidMoves_empty0 board h, h]
      norm_num
    · rw [getValidMoves_empty1 board h, h]
      norm_num
    · rw [getValidMoves_empty2 board h, h]
      norm_num
    · rw [getValidMoves_empty3 board h, h]
      norm_num
    · rw [getValidMoves_empty4 board h, h]
      norm_num
    · rw [getValidMoves_empty5 board h, h]
      norm_num
    · rw [getValidMoves_empty6 board h, h]
      norm_num
    · rw [getValidMoves_empty7 board h, h]
      norm_num
    · rw [getValidMoves_empty8 board h, h]
      norm_num
  · intro p hp
    obtain ⟨j, hj9, hadj, hswap⟩ := mem_getValidMoves he hp
    refine ⟨?_, j, hj9, hadj, hswap⟩
    rw [hswap]
    exact (swapCells_perm board _ j (by rw [hlen]; exact he) (by rw [hlen]; exact hj9)).trans hb

theorem claim_C5_witness :
    ([2, 1, 3, 4, 5, 6, 7, 8, 0] : Board).Perm [0, 1, 2, 3, 4, 5, 6, 7, 8] ∧
    (getValidMoves [2, 1, 3, 4, 5, 6, 7, 8, 0]).length =
      (if getEmptyIndex [2, 1, 3, 4, 5, 6, 7, 8, 0] = 4 then 4
       else if getEmptyIndex [2, 1, 3, 4, 5, 6, 7, 8, 0] = 0 ∨
           getEmptyIndex [2, 1, 3, 4, 5, 6, 7, 8, 0] = 2 ∨
           getEmptyIndex [2, 1, 3, 4, 5, 6, 7, 8, 0] = 6 ∨
           getEmptyIndex [2, 1, 3, 4, 5, 6, 7, 8, 0] = 8 then 2
       else 3) :=
  ⟨by decide, (claim_C5 [2, 1, 3, 4, 5, 6, 7, 8, 0] (by decide)).2.1⟩

/-- Spec-side inversion count of a flat list: the number of index pairs
`(i, j)` with `i < j` whose entries appear in reverse order (`l[i] > l[j]`). -/
def specInversions (l : List Nat) : Nat :=
  ((Finset.range l.length ×ˢ Finset.range l.length).filter
    (fun p => p.1 < p.2 ∧ l.getD p.2 0 < l.getD p.1 0)).card

lemma length_filter_eq_sum (p : Nat → Bool) (xs : List Nat) :
    (xs.filter p).length = ∑ j ∈ Finset.range xs.length, if p (xs.getD j 0) then 1 else 0 := by
  induction xs with
  | nil => simp
  | cons x xs ih =>
    rw [List.length_cons, Finset.sum_range_succ']
    simp only [List.getD_cons_succ, List.getD_cons_zero]
    rw [← ih]
    by_cases hp : p x <;> simp [hp, List.filter_cons]

lemma specInversions_nil : specInversions [] = 0 := by
  simp [specInversions]

lemma specInversions_cons (x : Nat) (xs : List Nat) :
    specInversions (x :: xs) = (xs.filter (fun y => y < x)).length + specInversions xs := by
  unfold specInversions
  rw [Finset.card_filter, Finset.card_filter, Finset.sum_product, Finset.sum_product]
  rw [List.length_cons, Finset.sum_range_succ']
  have h0 : (∑ j ∈ Finset.range (xs.length + 1),
      if 0 < j ∧ (x :: xs).getD j 0 < (x :: xs).getD 0 0 then 1 else 0) =
      (xs.filter (fun y => y < x)).length := by
    rw [Finset.sum_range_succ']
    simp only [List.getD_cons_succ, List.getD_cons_zero]
    rw [length_filter_eq_sum (fun y => y < x) xs]
    simp
  have hs : (∑ i ∈ Finset.range xs.length, ∑ j ∈ Finset.range (xs.length + 1),
      if i + 1 < j ∧ (x :: xs).getD j 0 < (x :: xs).getD (i + 1) 0 then 1 else 0) =
      ∑ i ∈ Finset.range xs.length, ∑ j ∈ Finset.range xs.length,
      if i < j ∧ xs.getD j 0 < xs.getD i 0 then 1 else 0 := by
    refine Finset.sum_congr rfl (fun i _ => ?_)
    rw [Finset.sum_range_succ']
    simp only [List.getD_cons_succ, Nat.add_lt_add_iff_right]
    simp
  rw [h0, hs, Nat.add_comm]

lemma inversions_eq_spec (l : List Nat) : inversions l = specInversions l := by
  induction l with
  | nil => simp [inversions, specInversions_nil]
  | cons x xs ih =>
    rw [inversions, specInversions_cons, ih]

/-- Claim C4: `isSolvable` returns true exactly when the number of inversions
among the non-zero cells, read in flat board order, is even. -/
theorem claim_C4 (board : Board) (hb : board.Perm [0, 1, 2, 3, 4, 5, 6, 7, 8]) :
    (isSolvable board = true ↔
      Even (specInversions (board.filter (fun x => x != 0)))) := by
  rw [isSolvable, ← inversions_eq_spec, Nat.even_iff]
  simp

theorem claim_C4_witness :
    ([1, 0, 2, 3, 4, 5, 6, 7, 8] : Board).Perm [0, 1, 2, 3, 4, 5, 6, 7, 8] ∧
    (isSolvable [1, 0, 2, 3, 4, 5, 6, 7, 8] = true ↔
      Even (specInversions (([1, 0, 2, 3, 4, 5, 6, 7, 8] : Board).filter (fun x => x != 0)))) :=
  ⟨by decide, claim_C4 [1, 0, 2, 3, 4, 5, 6, 7, 8] (by decide)⟩

/-- One legal move between consecutive boards: the successor is among the
boards `getValidMoves` offers from the predecessor. -/
def LegalStep (b1 b2 : Board) : Prop := ∃ m, (b2, m) ∈ getValidMoves b1

lemma mem_getValidMoves_perm {board : Board} (hb : board.Perm [0, 1, 2, 3, 4, 5, 6, 7, 8])
    {p : Board × String} (hp : p ∈ getValidMoves board) : p.1.Perm board := by
  obtain ⟨hlen, he⟩ := perm09_facts hb
  obtain ⟨j, hj, _, hsw⟩ := mem_getValidMoves he hp
  rw [hsw]
  exact swapCells_perm board _ j (by rw [hlen]; exact he) (by rw [hlen]; exact hj)

lemma replayGo_cons_goal (s : ReplayState) (g : String) (gs : List String)
    (hg : isGoalState s.board = true) :
    replayGo s (g :: gs) = { s with reachedGoal := true } := by
  rw [replayGo, if_pos hg]

lemma replayGo_cons_skip (s : ReplayState) (g : String) (gs : List String)
    (hg : ¬ isGoalState s.board = true)
    (hfind : (getValidMoves s.board).find? (fun mv => mv.2 == g) = none) :
    replayGo s (g :: gs) = replayGo s gs := by
  rw [replayGo, if_neg hg, hfind]

lemma replayGo_cons_move (s : ReplayState) (g : String) (gs : List String)
    (mv : Board × String) (hg : ¬ isGoalState s.board = true)
    (hfind : (getValidMoves s.board).find? (fun mv => mv.2 == g) = some mv) :
    replayGo s (g :: gs) =
      (if isGoalState mv.1 = true then
        ⟨mv.1, s.path ++ [mv.1], s.moveCount + 1,
          if manhattanDistance mv.1 < s.minDist then manhattanDistance mv.1 else s.minDist,
          if manhattanDistance mv.1 < s.minDist then s.progress + 10 else s.progress,
          true⟩
      else replayGo
        ⟨mv.1, s.path ++ [mv.1], s.moveCount + 1,
          if manhattanDistance mv.1 < s.minDist then manhattanDistance mv.1 else s.minDist,
          if manhattanDistance mv.1 < s.minDist then s.progress + 10 else s.progress,
          s.reachedGoal⟩ gs) := by
  rw [replayGo, if_neg hg, hfind]

lemma replayGo_flag (gs : List String) : ∀ s : ReplayState,
    (replayGo s gs).reachedGoal = true →
    s.reachedGoal = true ∨ isGoalState (replayGo s gs).board = true := by
  induction gs with
  | nil => intro s h; exact Or.inl h
  | cons g gs ih =>
    intro s h
    by_cases hg : isGoalState s.board = true
    · rw [replayGo_cons_goal s g gs hg] at h ⊢
      exact Or.inr hg
    · cases hfind : (getValidMoves s.board).find? (fun mv => mv.2 == g) with
      | none =>
        rw [replayGo_cons_skip s g gs hg hfind] at h ⊢
        exact ih s h
      | some mv =>
        rw [replayGo_cons_move s g gs mv hg hfind] at h ⊢
        by_cases hg2 : isGoalState mv.1 = true
        · rw [if_pos hg2] at h ⊢
          exact Or.inr hg2
        · rw [if_neg hg2] at h ⊢
          rcases ih _ h with h1 | h1
          · exact Or.inl h1
          · exact Or.inr h1

/-- Invariant carried along the `calculateFitness` replay: the path is a
non-empty chain of legal moves from the initial board to the current board,
and the current board is still a permutation of the initial one. -/
structure ReplayInv (b0 : Board) (s : ReplayState) : Prop where
  path_ne : s.path ≠ []
  head : s.path.head? = some b0
  chain : List.Chain' LegalStep s.path
  last : s.path.getLast? = some s.board
  perm : s.board.Perm b0

lemma replayGo_inv {b0 : Board} (hb : b0.Perm [0, 1, 2, 3, 4, 5, 6, 7, 8])
    (gs : List String) : ∀ s : ReplayState, ReplayInv b0 s →
    ReplayInv b0 (replayGo s gs) := by
  induction gs with
  | nil => intro s h; exact h
  | cons g gs ih =>
    intro s h
    by_cases hg : isGoalState s.board = true
    · rw [replayGo_cons_goal s g gs hg]
      exact ⟨h.path_ne, h.head, h.chain, h.last, h.perm⟩
    · cases hfind : (getValidMoves s.board).find? (fun mv => mv.2 == g) with
      | none =>
        rw [replayGo_cons_skip s g gs hg hfind]
        exact ih s h
      | some mv =>
        rw [replayGo_cons_move s g gs mv hg hfind]
        have hmem : mv ∈ getValidMoves s.board := List.mem_of_find?_eq_some hfind
        have hperm1 : mv.1.Perm s.board :=
          mem_getValidMoves_perm (h.perm.trans hb) hmem
        have hinv1 : ReplayInv b0
            ⟨mv.1, s.path ++ [mv.1], s.moveCount + 1,
              if manhattanDistance mv.1 < s.minDist then manhattanDistance mv.1 else s.minDist,
              if manhattanDistance mv.1 < s.minDist then s.progress + 10 else s.progress,
              s.reachedGoal⟩ := by
          refine ⟨by simp, ?_, ?_, ?_, hperm1.trans h.perm⟩
          · show (s.path ++ [mv.1]).head? = some b0
            rw [List.head?_append, h.head]
            rfl
          · show List.Chain' LegalStep (s.path ++ [mv.1])
            rw [List.chain'_append]
            refine ⟨h.chain, List.chain'_singleton mv.1, ?_⟩
            intro x hx y hy
            rw [h.last] at hx
            simp only [Option.mem_def, Option.some_inj] at hx
            simp only [List.head?_cons, Option.mem_def, Option.some_inj] at hy
            subst hx
            subst hy
            exact ⟨mv.2, by simpa using hmem⟩
          · exact List.getLast?_concat _
        by_cases hg2 : isGoalState mv.1 = true
        · rw [if_pos hg2]
          exact ⟨hinv1.path_ne, hinv1.head, hinv1.chain, hinv1.last, hinv1.perm⟩
        · rw [if_neg hg2]
          exact ih _ hinv1

lemma replayGo_progress (gs : List String) : ∀ s : ReplayState,
    (replayGo s gs).progress + 10 * (replayGo s gs).minDist ≤
      s.progress + 10 * s.minDist := by
  induction gs with
  | nil => intro s; exact le_refl _
  | cons g gs ih =>
    intro s
    by_cases hg : isGoalState s.board = true
    · rw [replayGo_cons_goal s g gs hg]
    · cases hfind : (getValidMoves s.board).find? (fun mv => mv.2 == g) with
      | none =>
        rw [replayGo_cons_skip s g gs hg hfind]
        exact ih s
      | some mv =>
        rw [replayGo_cons_move s g gs mv hg hfind]
        by_cases hg2 : isGoalState mv.1 = true
        · rw [if_pos hg2]
          by_cases hlt : manhattanDistance mv.1 < s.minDist <;> simp [hlt] <;> omega
        · rw [if_neg hg2]
          refine le_trans (ih _) ?_
          by_cases hlt : manhattanDistance mv.1 < s.minDist <;> simp [hlt] <;> omega

lemma replayGo_no_goal (gs : List String) : ∀ s : ReplayState,
    (gs ≠ [] ∨ isGoalState s.board = false) →
    (∀ p ∈ s.path.dropLast, isGoalState p = false) →
    s.path.getLast? = some s.board →
    (replayGo s gs).reachedGoal = false →
    ∀ p ∈ (replayGo s gs).path, isGoalState p = false := by
  induction gs with
  | nil =>
    intro s hpre hdrop hlast hflag p hp
    have hgb : isGoalState s.board = false := hpre.resolve_left (fun hc => hc rfl)
    have heq := List.dropLast_append_getLast? s.board hlast
    rw [replayGo] at hp
    rw [← heq] at hp
    rcases List.mem_append.mp hp with h1 | h1
    · exact hdrop p h1
    · rw [List.mem_singleton.mp h1]
      exact hgb
  | cons g gs ih =>
    intro s hpre hdrop hlast hflag p hp
    by_cases hg : isGoalState s.board = true
    · rw [replayGo_cons_goal s g gs hg] at hflag
      simp at hflag
    · have hgb : isGoalState s.board = false := by
        simpa using hg
      cases hfind : (getValidMoves s.board).find? (fun mv => mv.2 == g) with
      | none =>
        rw [replayGo_cons_skip s g gs hg hfind] at hflag hp
        exact ih s (Or.inr hgb) hdrop hlast hflag p hp
      | some mv =>
        rw [replayGo_cons_move s g gs mv hg hfind] at hflag hp
        have hdrop1 : ∀ q ∈ (s.path ++ [mv.1]).dropLast, isGoalState q = false := by
          rw [List.dropLast_concat]
          intro q hq
          have heq := List.dropLast_append_getLast? s.board hlast
          rw [← heq] at hq
          rcases List.mem_append.mp hq with h1 | h1
          · exact hdrop q h1
          · rw [List.mem_singleton.mp h1]
            exact hgb
        by_cases hg2 : isGoalState mv.1 = true
        · rw [if_pos hg2] at hflag
          simp at hflag
        · rw [if_neg hg2] at hflag hp
          have hgb2 : isGoalState mv.1 = false := by
            simpa using hg2
          exact ih _ (Or.inr hgb2) hdrop1 (List.getLast?_concat _) hflag p hp

lemma tileCost_le (i v : Nat) (hi : i ≤ 8) (hv : v ≤ 8) : tileCost i v ≤ 4 := by
  unfold tileCost
  have h1 : (v - 1) / 3 ≤ 2 := by omega
  have h2 : (v - 1) % 3 ≤ 2 := by omega
  have h3 : i / 3 ≤ 2 := by omega
  have h4 : i % 3 ≤ 2 := by omega
  omega

lemma mdFrom_le (l : List Nat) : ∀ i : Nat, (∀ v ∈ l, v ≤ 8) → i + l.length ≤ 9 →
    mdFrom l i ≤ 4 * l.length := by
  induction l with
  | nil => intro i _ _; simp [mdFrom]
  | cons v rest ih =>
    intro i hv hi
    rw [mdFrom]
    have hlen : i + (rest.length + 1) ≤ 9 := by simpa using hi
    have h1 : (if v ≠ 0 then tileCost i v else 0) ≤ 4 := by
      by_cases hz : v ≠ 0
      · rw [if_pos hz]
        exact tileCost_le i v (by omega) (hv v (by simp))
      · rw [if_neg hz]
        omega
    have h2 : mdFrom rest (i + 1) ≤ 4 * rest.length :=
      ih (i + 1) (fun w hw => hv w (by simp [hw])) (by omega)
    simp only [List.length_cons]
    omega

/-- Any permutation of 0..8 has Manhattan distance at most 36. -/
lemma manhattanDistance_le_36 {board : Board} (hb : board.Perm [0, 1, 2, 3, 4, 5, 6, 7, 8]) :
    manhattanDistance board ≤ 36 := by
  obtain ⟨hlen, _⟩ := perm09_facts hb
  have hv : ∀ v ∈ board, v ≤ 8 := by
    intro v hvm
    have h1 : v ∈ [0, 1, 2, 3, 4, 5, 6, 7, 8] := hb.mem_iff.mp hvm
    simp only [List.mem_cons, List.not_mem_nil, or_false] at h1
    omega
  have h2 := mdFrom_le board 0 hv (by omega)
  rw [hlen] at h2
  simpa [manhattanDistance] using h2

/-- Claim C6: a gene whose direction matches no valid move from the current
board is skipped with no effect — the replay state is unchanged and the
replay continues with the remaining genes.  (The hypothesis that the current
board is not the goal mirrors the loop-head goal check, which precedes the
move lookup in the source.) -/
theorem claim_C6 (s : ReplayState) (g : String) (gs : List String)
    (hg : isGoalState s.board = false)
    (hfind : (getValidMoves s.board).find? (fun mv => mv.2 == g) = none) :
    replayGo s (g :: gs) = replayGo s gs :=
  replayGo_cons_skip s g gs (by simp [hg]) hfind

theorem claim_C6_witness :
    isGoalState (initReplay [1, 2, 3, 4, 5, 6, 7, 0, 8]).board = false ∧
    (getValidMoves (initReplay [1, 2, 3, 4, 5, 6, 7, 0, 8]).board).find?
      (fun mv => mv.2 == "DOWN") = none ∧
    replayGo (initReplay [1, 2, 3, 4, 5, 6, 7, 0, 8]) ["DOWN"] =
      replayGo (initReplay [1, 2, 3, 4, 5, 6, 7, 0, 8]) [] := by
  have h1 : isGoalState (initReplay [1, 2, 3, 4, 5, 6, 7, 0, 8]).board = false := by decide
  have h2 : (getValidMoves (initReplay [1, 2, 3, 4, 5, 6, 7, 0, 8]).board).find?
      (fun mv => mv.2 == "DOWN") = none := by decide
  exact ⟨h1, h2, claim_C6 _ "DOWN" [] h1 h2⟩

/-- Claim C10: after `calculateFitness`, the recorded path is non-empty,
starts at the initial board, advances by one legal move per step, and — when
`reachedGoal` is set — ends at the goal state. -/
theorem claim_C10 (ms : List String) (b : Board)
    (hb : b.Perm [0, 1, 2, 3, 4, 5, 6, 7, 8]) :
    ((Individual.ofMoves ms).calculateFitness b).path ≠ [] ∧
    ((Individual.ofMoves ms).calculateFitness b).path.head? = some b ∧
    List.Chain' LegalStep ((Individual.ofMoves ms).calculateFitness b).path ∧
    (((Individual.ofMoves ms).calculateFitness b).reachedGoal = true →
      ((Individual.ofMoves ms).calculateFitness b).path.getLast? = some GOAL_STATE) := by
  have hinv0 : ReplayInv b (initReplay b) :=
    ⟨by simp [initReplay], by simp [initReplay],
      by simpa [initReplay] using List.chain'_singleton b,
      by simp [initReplay], List.Perm.refl b⟩
  have hinv := replayGo_inv hb ms (initReplay b) hinv0
  have hpatheq : ((Individual.ofMoves ms).calculateFitness b).path =
      (replayGo (initReplay b) ms).path := rfl
  refine ⟨?_, ?_, ?_, ?_⟩
  · rw [hpatheq]
    exact hinv.path_ne
  · rw [hpatheq]
    exact hinv.head
  · rw [hpatheq]
    exact hinv.chain
  · intro hflag
    have hflag1 : (replayGo (initReplay b) ms).reachedGoal = true := hflag
    rcases replayGo_flag ms (initReplay b) hflag1 with h1 | h1
    · simp [initReplay] at h1
    · have hlen9 : (replayGo (initReplay b) ms).board.length = 9 := by
        rw [hinv.perm.length_eq]
        exact (perm09_facts hb).1
      have hgb := (isGoalState_iff_of_len hlen9).mp h1
      rw [hpatheq, hinv.last, hgb]

theorem claim_C10_witness :
    GOAL_STATE.Perm [0, 1, 2, 3, 4, 5, 6, 7, 8] ∧
    ((Individual.ofMoves ["UP"]).calculateFitness GOAL_STATE).path.head? = some GOAL_STATE :=
  ⟨by decide, (claim_C10 ["UP"] GOAL_STATE (by decide)).2.1⟩

/-- Claim C2 (amended): for a non-empty chromosome, the replay visits the goal
exactly when `reachedGoal` is set; on success the fitness is
`10000 − moveCount`, otherwise it is
`1000 − 10·finalDistance − 5·tilesOutOfPlace − moveCount + progressScore`, and
a non-goal-reaching individual always scores below 10000.  (The non-empty
hypothesis excludes the degenerate empty-chromosome-on-goal-board run, where
the source never raises the flag — see the counterexample.) -/
theorem claim_C2 (ms : List String) (b : Board)
    (hb : b.Perm [0, 1, 2, 3, 4, 5, 6, 7, 8]) (hms : ms ≠ []) :
    (((Individual.ofMoves ms).calculateFitness b).reachedGoal = true ↔
      ∃ p ∈ ((Individual.ofMoves ms).calculateFitness b).path, isGoalState p = true) ∧
    (((Individual.ofMoves ms).calculateFitness b).reachedGoal = true →
      ((Individual.ofMoves ms).calculateFitness b).fitness =
        10000 - ((replayGo (initReplay b) ms).moveCount : Int)) ∧
    (((Individual.ofMoves ms).calculateFitness b).reachedGoal = false →
      ((Individual.ofMoves ms).calculateFitness b).fitness =
        1000 - ((manhattanDistance (replayGo (initReplay b) ms).board : Int) * 10)
          - ((tilesOutOfPlace (replayGo (initReplay b) ms).board : Int) * 5)
          - ((replayGo (initReplay b) ms).moveCount : Int)
          + ((replayGo (initReplay b) ms).progress : Int)) ∧
    (((Individual.ofMoves ms).calculateFitness b).reachedGoal = false →
      ((Individual.ofMoves ms).calculateFitness b).fitness < 10000) := by
  have hinv0 : ReplayInv b (initReplay b) :=
    ⟨by simp [initReplay], by simp [initReplay],
      by simpa [initReplay] using List.chain'_singleton b,
      by simp [initReplay], List.Perm.refl b⟩
  have hinv := replayGo_inv hb ms (initReplay b) hinv0
  have hflageq : ((Individual.ofMoves ms).calculateFitness b).reachedGoal =
      (replayGo (initReplay b) ms).reachedGoal := rfl
  have hpatheq : ((Individual.ofMoves ms).calculateFitness b).path =
      (replayGo (initReplay b) ms).path := rfl
  have hfiteq : ((Individual.ofMoves ms).calculateFitness b).fitness =
      (if (replayGo (initReplay b) ms).reachedGoal then
        10000 - ((replayGo (initReplay b) ms).moveCount : Int)
      else 1000 - ((manhattanDistance (replayGo (initReplay b) ms).board : Int) * 10)
        - ((tilesOutOfPlace (replayGo (initReplay b) ms).board : Int) * 5)
        - ((replayGo (initReplay b) ms).moveCount : Int)
        + ((replayGo (initReplay b) ms).progress : Int)) := rfl
  refine ⟨?_, ?_, ?_, ?_⟩
  · rw [hflageq, hpatheq]
    constructor
    · intro hflag
      rcases replayGo_flag ms (initReplay b) hflag with h1 | h1
      · simp [initReplay] at h1
      · exact ⟨(replayGo (initReplay b) ms).board,
          List.mem_of_mem_getLast? hinv.last, h1⟩
    · rintro ⟨p, hp, hpg⟩
      by_contra hflag
      have hflag1 : (replayGo (initReplay b) ms).reachedGoal = false := by
        cases hfl : (replayGo (initReplay b) ms).reachedGoal
        · rfl
        · exact absurd hfl hflag
      have hall := replayGo_no_goal ms (initReplay b) (Or.inl hms)
        (by simp [initReplay]) (by simp [initReplay]) hflag1
      rw [hall p hp] at hpg
      exact Bool.false_ne_true hpg
  · intro hflag
    rw [hflageq] at hflag
    rw [hfiteq, if_pos hflag]
  · intro hflag
    rw [hflageq] at hflag
    rw [hfiteq, if_neg (by simp [hflag])]
  · intro hflag
    rw [hflageq] at hflag
    rw [hfiteq, if_neg (by simp [hflag])]
    have hprog := replayGo_progress ms (initReplay b)
    have hmd : manhattanDistance b ≤ 36 := manhattanDistance_le_36 hb
    have h1 : (replayGo (initReplay b) ms).progress ≤ 360 := by
      have h2 : (initReplay b).progress + 10 * (initReplay b).minDist ≤ 360 := by
        simp only [initReplay]
        omega
      omega
    omega

/-- The claim C2 fails as literally stated on the degenerate input of an empty
chromosome replayed on the goal board: the replay sits on the goal, yet
`reachedGoal` stays false and the fitness is the non-goal formula value 1000,
not `10000 − moveCount = 10000`. -/
theorem claim_C2_counterexample :
    (∃ p ∈ ((Individual.ofMoves []).calculateFitness GOAL_STATE).path,
      isGoalState p = true) ∧
    ((Individual.ofMoves []).calculateFitness GOAL_STATE).reachedGoal = false ∧
    ((Individual.ofMoves []).calculateFitness GOAL_STATE).fitness = 1000 ∧
    (replayGo (initReplay GOAL_STATE) []).moveCount = 0 :=
  ⟨⟨GOAL_STATE, by decide, by decide⟩, by decide, by decide, by decide⟩

theorem claim_C2_witness :
    GOAL_STATE.Perm [0, 1, 2, 3, 4, 5, 6, 7, 8] ∧ (["LEFT"] : List String) ≠ [] ∧
    (((Individual.ofMoves ["LEFT"]).calculateFitness GOAL_STATE).reachedGoal = true →
      ((Individual.ofMoves ["LEFT"]).calculateFitness GOAL_STATE).fitness =
        10000 - ((replayGo (initReplay GOAL_STATE) ["LEFT"]).moveCount : Int)) :=
  ⟨by decide, by decide, (claim_C2 ["LEFT"] GOAL_STATE (by decide) (by decide)).2.1⟩

lemma randIndex_lt {q : ℚ} (h0 : 0 ≤ q) (h1 : q < 1) {n : Nat} (hn : 0 < n) :
    randIndex q n < n := by
  unfold randIndex
  have hrf : (q * (n : ℚ)).floor = ⌊q * (n : ℚ)⌋ := rfl
  have hnq : (0 : ℚ) < (n : ℚ) := by exact_mod_cast hn
  have hq : q * (n : ℚ) < (n : ℚ) := by
    calc q * (n : ℚ) < 1 * (n : ℚ) := mul_lt_mul_of_pos_right h1 hnq
    _ = (n : ℚ) := one_mul _
  have hfl : ⌊q * (n : ℚ)⌋ < (n : Int) := by
    rw [Int.floor_lt]
    exact_mod_cast hq
  rw [hrf]
  omega

lemma randIndex_zero (q : ℚ) : randIndex q 0 = 0 := by
  have hrf : (q * ((0 : Nat) : ℚ)).floor = ⌊q * ((0 : Nat) : ℚ)⌋ := rfl
  unfold randIndex
  rw [hrf]
  simp

/-- Claim C7: the crossover point lies in `[0, min(len1, len2))` (degenerating
to 0 when a parent is empty), the offspring chromosome is parent 1's genes
before the point followed by parent 2's genes from the point on, and its
length is `point + (len2 − point) = len2` — parent 2's length, independent of
parent 1's tail.  (Neither parent is mutated: the source builds a fresh array
and a fresh `Individual`, and the embedding is pure.) -/
theorem claim_C7 (p1 p2 : Individual) (q : ℚ) (h0 : 0 ≤ q) (h1 : q < 1) :
    (0 < min p1.moves.length p2.moves.length →
      randIndex q (min p1.moves.length p2.moves.length) <
        min p1.moves.length p2.moves.length) ∧
    (min p1.moves.length p2.moves.length = 0 →
      randIndex q (min p1.moves.length p2.moves.length) = 0) ∧
    (p1.crossover p2 q).moves =
      p1.moves.take (randIndex q (min p1.moves.length p2.moves.length)) ++
        p2.moves.drop (randIndex q (min p1.moves.length p2.moves.length)) ∧
    (p1.crossover p2 q).moves.length =
      randIndex q (min p1.moves.length p2.moves.length) +
        (p2.moves.length - randIndex q (min p1.moves.length p2.moves.length)) ∧
    (p1.crossover p2 q).moves.length = p2.moves.length := by
  have hpt : randIndex q (min p1.moves.length p2.moves.length) ≤ p1.moves.length ∧
      randIndex q (min p1.moves.length p2.moves.length) ≤ p2.moves.length := by
    rcases Nat.eq_zero_or_pos (min p1.moves.length p2.moves.length) with hz | hpos
    · rw [hz, randIndex_zero]
      omega
    · have := randIndex_lt h0 h1 hpos
      omega
  have hmv : (p1.crossover p2 q).moves =
      p1.moves.take (randIndex q (min p1.moves.length p2.moves.length)) ++
        p2.moves.drop (randIndex q (min p1.moves.length p2.moves.length)) := rfl
  have hlen : (p1.crossover p2 q).moves.length =
      randIndex q (min p1.moves.length p2.moves.length) +
        (p2.moves.length - randIndex q (min p1.moves.length p2.moves.length)) := by
    rw [hmv, List.length_append, List.length_take, List.length_drop]
    omega
  refine ⟨fun hpos => randIndex_lt h0 h1 hpos, fun hz => by rw [hz, randIndex_zero],
    hmv, hlen, ?_⟩
  rw [hlen]
  omega

theorem claim_C7_witness :
    (0 : ℚ) ≤ 1 / 2 ∧ (1 / 2 : ℚ) < 1 ∧
    ((Individual.ofMoves ["UP", "UP"]).crossover
        (Individual.ofMoves ["DOWN"]) (1 / 2)).moves.length =
      (Individual.ofMoves ["DOWN"]).moves.length :=
  ⟨by norm_num, by norm_num,
    (claim_C7 (Individual.ofMoves ["UP", "UP"]) (Individual.ofMoves ["DOWN"]) (1 / 2)
      (by norm_num) (by norm_num)).2.2.2.2⟩

lemma fillOffspring_length (σ : Nat → ℚ) (population : List Individual)
    (config : GeneticConfig) : ∀ (need : Nat) (acc : List Individual) (k : Nat),
    (fillOffspring σ population config need acc k).1.length = acc.length + need := by
  intro need
  induction need with
  | zero => intro acc k; rw [fillOffspring]; rfl
  | succ need ih =>
    intro acc k
    rw [fillOffspring, ih]
    simp only [List.length_append, List.length_cons, List.length_nil]
    omega

lemma fillOffspring_take (σ : Nat → ℚ) (population : List Individual)
    (config : GeneticConfig) : ∀ (need : Nat) (acc : List Individual) (k n : Nat),
    n ≤ acc.length →
    (fillOffspring σ population config need acc k).1.take n = acc.take n := by
  intro need
  induction need with
  | zero => intro acc k n hn; rw [fillOffspring]
  | succ need ih =>
    intro acc k n hn
    rw [fillOffspring, ih]
    · exact List.take_append_of_le_length hn
    · simp only [List.length_append]
      omega

lemma nextGeneration_length (σ : Nat → ℚ) (population : List Individual)
    (config : GeneticConfig) (k : Nat)
    (hpop : population.length = config.populationSize) :
    (nextGeneration σ population config k).1.length = config.populationSize := by
  unfold nextGeneration
  rw [fillOffspring_length]
  have helite : ((population.take config.elitismCount).map Individual.clone).length =
      min config.elitismCount config.populationSize := by
    simp [hpop]
  rw [helite]
  omega

/-- Claim C8: each next generation has size exactly `populationSize`: the
carried elites come first (clones of the leading sorted individuals), their
number is clamped to `min elitismCount populationSize`, never exceeding the
population length or the size target, and offspring fill the remainder. -/
theorem claim_C8 (σ : Nat → ℚ) (population : List Individual) (config : GeneticConfig)
    (k : Nat) (hpop : population.length = config.populationSize) :
    (nextGeneration σ population config k).1.length = config.populationSize ∧
    (nextGeneration σ population config k).1.take
        (min config.elitismCount config.populationSize) =
      (population.take config.elitismCount).map Individual.clone ∧
    min config.elitismCount config.populationSize ≤ population.length ∧
    min config.elitismCount config.populationSize ≤ config.populationSize := by
  have helite : ((population.take config.elitismCount).map Individual.clone).length =
      min config.elitismCount config.populationSize := by
    simp [hpop]
  refine ⟨nextGeneration_length σ population config k hpop, ?_, by omega, by omega⟩
  unfold nextGeneration
  rw [fillOffspring_take σ population config _ _ k
    (min config.elitismCount config.populationSize) (le_of_eq helite.symm)]
  rw [← helite, List.take_length]

theorem claim_C8_witness :
    ([Individual.ofMoves [], Individual.ofMoves []] : List Individual).length = 2 ∧
    (nextGeneration (fun _ => 0) [Individual.ofMoves [], Individual.ofMoves []]
        ⟨2, 1, 0, 0, 5⟩ 0).1.length = 2 :=
  ⟨rfl, (claim_C8 (fun _ => 0) [Individual.ofMoves [], Individual.ofMoves []]
    ⟨2, 1, 0, 0, 5⟩ 0 rfl).1⟩

lemma initPopulation_length (σ : Nat → ℚ) : ∀ n k, (initPopulation σ n k).1.length = n := by
  intro n
  induction n with
  | zero => intro k; rfl
  | succ n ih =>
    intro k
    rw [initPopulation]
    simp [ih]

lemma geneticLoop_pos (σ : Nat → ℚ) (b : Board) (config : GeneticConfig) :
    ∀ (gens : Nat) (population : List Individual) (best : Option Individual) (k : Nat),
    population.length = config.populationSize → 0 < config.populationSize →
    (0 < gens ∨ best.isSome = true) →
    ∃ ind, geneticLoop σ b config gens population best k = .ok (some ind) := by
  intro gens
  induction gens with
  | zero =>
    intro population best k hlen hpos hsome
    rcases hsome with hg | hs
    · omega
    · obtain ⟨ind, hind⟩ := Option.isSome_iff_exists.mp hs
      exact ⟨ind, by rw [geneticLoop, hind]⟩
  | succ gens ih =>
    intro population best k hlen hpos hsome
    rw [geneticLoop]
    cases hsort : (population.map (fun ind => ind.calculateFitness b)).mergeSort fitnessGE with
    | nil =>
      exfalso
      have hcl := congrArg List.length hsort
      rw [List.length_mergeSort, List.length_map, hlen] at hcl
      simp at hcl
      omega
    | cons currentBest sortedRest =>
      have hlen1 : (currentBest :: sortedRest).length = config.populationSize := by
        have hcl := congrArg List.length hsort
        rw [List.length_mergeSort, List.length_map, hlen] at hcl
        exact hcl.symm
      by_cases hrg : currentBest.reachedGoal = true
      · exact ⟨currentBest, by simp [hrg]⟩
      · have hrg2 : currentBest.reachedGoal = false := by
          simpa using hrg
        simp only [hrg2, Bool.false_eq_true, if_false]
        apply ih
        · exact nextGeneration_length σ (currentBest :: sortedRest) config k hlen1
        · exact hpos
        · right
          cases best with
          | none => simp
          | some v =>
            by_cases hf : v.fitness < currentBest.fitness <;> simp [hf]

/-- Claim C3 (amended): the genetic solver returns a best individual exactly
when at least one generation runs on a non-empty population; with
`maxGenerations = 0` the loop never runs and `null` is returned even for a
non-empty population, and with an empty population (`populationSize = 0`) a
positive generation count makes the source throw a `TypeError`
(dereferencing `population[0]`) instead of returning `null`. -/
theorem claim_C3 (σ : Nat → ℚ) (b : Board) (config : GeneticConfig) :
    (config.maxGenerations = 0 → solvePuzzleGenetic σ b config = .ok none) ∧
    (0 < config.maxGenerations → config.populationSize = 0 →
      ∃ e, solvePuzzleGenetic σ b config = .error e) ∧
    (0 < config.maxGenerations → 0 < config.populationSize →
      ∃ ind, solvePuzzleGenetic σ b config = .ok (some ind)) := by
  refine ⟨?_, ?_, ?_⟩
  · intro h0
    simp only [solvePuzzleGenetic]
    rw [h0, geneticLoop]
  · intro hg hp
    obtain ⟨g, hgeq⟩ : ∃ g, config.maxGenerations = g + 1 :=
      ⟨config.maxGenerations - 1, by omega⟩
    have hempty : (initPopulation σ config.populationSize 0).1 = [] := by
      apply List.length_eq_zero.mp
      rw [initPopulation_length σ config.populationSize 0]
      exact hp
    simp only [solvePuzzleGenetic]
    rw [hgeq, hempty, geneticLoop]
    refine ⟨"TypeError: population[0] is undefined", ?_⟩
    simp only [List.map_nil, List.mergeSort_nil]
  · intro hg hp
    simp only [solvePuzzleGenetic]
    exact geneticLoop_pos σ b config config.maxGenerations _ none _
      (initPopulation_length σ config.populationSize 0) hp (Or.inl hg)

/-- The claim C3 fails as literally stated: with a non-empty population
(`populationSize = 1`) but `maxGenerations = 0`, the solver returns `null`. -/
theorem claim_C3_counterexample :
    solvePuzzleGenetic (fun _ => 0) GOAL_STATE ⟨1, 0, 0, 0, 0⟩ = .ok none ∧
    (0 : Nat) < 1 :=
  ⟨rfl, Nat.zero_lt_one⟩

theorem claim_C3_witness :
    (0 : Nat) < 1 ∧
    ∃ ind, solvePuzzleGenetic (fun _ => 0) GOAL_STATE ⟨1, 1, 0, 0, 0⟩ =
      .ok (some ind) :=
  ⟨Nat.zero_lt_one,
    (claim_C3 (fun _ => 0) GOAL_STATE ⟨1, 1, 0, 0, 0⟩).2.2 Nat.zero_lt_one Nat.zero_lt_one⟩

lemma astarLoop_result (openSet : List PuzzleState) (closedSet : List Board) :
    (∀ n ∈ openSet, n.path.getLast? = some n.board) →
    astarLoop openSet closedSet = [] ∨
    ∃ g, (astarLoop openSet closedSet).getLast? = some g ∧ isGoalState g = true := by
  induction openSet, closedSet using astarLoop.induct with
  | case1 openSet closedSet h =>
    intro _
    left
    rw [astarLoop, h]
  | case2 openSet closedSet current rest h hgoal =>
    intro hinv
    right
    have hmem : current ∈ openSet := by
      apply List.mem_mergeSort.mp
      rw [h]
      exact List.mem_cons_self _ _
    refine ⟨current.board, ?_, hgoal⟩
    rw [astarLoop, h]
    dsimp only
    rw [if_pos hgoal]
    exact hinv current hmem
  | case3 openSet closedSet current rest h hgoal hstale ih =>
    intro hinv
    have hsub : ∀ n ∈ rest, n.path.getLast? = some n.board := by
      intro n hn
      apply hinv
      apply List.mem_mergeSort.mp
      rw [h]
      exact List.mem_cons_of_mem _ hn
    rw [astarLoop, h]
    dsimp only
    rw [if_neg hgoal, if_pos hstale]
    exact ih hsub
  | case4 openSet closedSet current rest h hgoal hstale closed hcap =>
    intro _
    left
    have hcap1 : (current.board :: closedSet).length > 100000 := hcap
    rw [astarLoop, h]
    dsimp only
    rw [if_neg hgoal, if_neg hstale, if_pos hcap1]
  | case5 openSet closedSet current rest h hgoal hstale closed newNodes hcap ih =>
    intro hinv
    have hcap1 : ¬ (current.board :: closedSet).length > 100000 := hcap
    have hsub : ∀ n ∈ rest ++ expandNodes current (current.board :: closedSet),
        n.path.getLast? = some n.board := by
      intro n hn
      rcases List.mem_append.mp hn with h1 | h1
      · apply hinv
        apply List.mem_mergeSort.mp
        rw [h]
        exact List.mem_cons_of_mem _ h1
      · unfold expandNodes at h1
        obtain ⟨mv, hmv, hsome⟩ := List.mem_filterMap.mp h1
        by_cases hc : (current.board :: closedSet).contains mv.1 = true
        · rw [if_pos hc] at hsome
          cases hsome
        · rw [if_neg hc] at hsome
          cases hsome
          exact List.getLast?_concat _
    rw [astarLoop, h]
    dsimp only
    rw [if_neg hgoal, if_neg hstale, if_neg hcap1]
    exact ih hsub

/-- Claim C9: `solveAStar` has no exception path — for every board it
terminates with a value, and any outcome other than a found goal path (the
open set emptying, or the closed set exceeding the 100000-entry expansion
cap) is represented by the empty sequence: every non-empty result ends at a
goal board. -/
theorem claim_C9 (b : Board) :
    solveAStar b = [] ∨
    ∃ g, (solveAStar b).getLast? = some g ∧ isGoalState g = true := by
  unfold solveAStar
  apply astarLoop_result
  intro n hn
  simp only [List.mem_singleton] at hn
  rw [hn]
  rfl

end EightPuzzle
